import Mathlib

/-!
Shallow embedding of `drill_converter.py`, a CSV-to-HTML converter for a
hockey-drill database, together with the embedded page's client-side
filtering logic (the JavaScript in `generate_html`).

Strings are modelled through their underlying character lists
(`String.data`), with Python/JavaScript string primitives (`strip`,
`split(',')`, `toLowerCase`, `includes`) given as executable functions on
those lists.  The JavaScript `Set` of active tag filters is modelled as a
`Finset String`.  Sorting (`sorted` in Python) is modelled by insertion
sort under the code-point lexicographic order `strLe`.
-/

/-- Code-point lexicographic "less or equal" on character lists: the order
used by Python's `sorted` on strings (ordinal, case-sensitive). -/
def lexLe : List Char → List Char → Bool
  | [], _ => true
  | _ :: _, [] => false
  | a :: as, b :: bs =>
    if a.toNat < b.toNat then true
    else if b.toNat < a.toNat then false
    else lexLe as bs

/-- Ordinal (code-point lexicographic) order on strings. -/
def strLe (s t : String) : Prop := lexLe s.data t.data = true

instance : DecidableRel strLe :=
  fun s t => inferInstanceAs (Decidable (lexLe s.data t.data = true))

/-- Leading and trailing whitespace removal on a character list. -/
def stripChars (l : List Char) : List Char :=
  ((l.dropWhile Char.isWhitespace).reverse.dropWhile Char.isWhitespace).reverse

/-- Model of Python's `str.strip()` (no arguments): remove leading and
trailing whitespace. -/
def pyStrip (s : String) : String := ⟨stripChars s.data⟩

/-- Model of `str.lower` / JavaScript `toLowerCase`: lower-case every
character. -/
def pyToLower (s : String) : String := ⟨s.data.map Char.toLower⟩

/-- Accumulator-style worker for `pySplit`. -/
def splitAux (sep : Char) : List Char → List Char → List String
  | [], acc => [⟨acc.reverse⟩]
  | c :: cs, acc =>
    if c = sep then ⟨acc.reverse⟩ :: splitAux sep cs []
    else splitAux sep cs (c :: acc)

/-- Model of Python's `str.split(sep)` for a one-character separator:
`"" ↦ [""]`, and separators delimit (possibly empty) pieces. -/
def pySplit (sep : Char) (s : String) : List String := splitAux sep s.data []

/-- Boolean test: `n` is a prefix of `h`. -/
def prefixB : List Char → List Char → Bool
  | [], _ => true
  | _ :: _, [] => false
  | a :: as, b :: bs => a == b && prefixB as bs

/-- Boolean test: `n` occurs as a contiguous substring of the list argument. -/
def substrB (n : List Char) : List Char → Bool
  | [] => n.isEmpty
  | c :: t => prefixB n (c :: t) || substrB n t

/-- Model of JavaScript `hay.includes(needle)`: substring containment. -/
def jsIncludes (hay needle : String) : Bool := substrB needle.data hay.data

/-- One drill record, as built by `parse_csv` (the Python dict with keys
`name`, `link`, `tags`, `theme`, `sub_category`). -/
structure Record where
  name : String
  link : String
  tags : List String
  theme : String
  sub_category : String
deriving DecidableEq

/-- Model of `row[i].strip() if len(row) > i else ""` in `parse_csv`. -/
def rowField (row : List String) (i : Nat) : String :=
  if i < row.length then pyStrip (row.getD i "") else ""

/-- Model of the theme / sub-category comma parsing in `parse_csv`:
`[t.strip() for t in s.split(',') if t.strip()]` guarded by `if s:`. -/
def parseCommaList (s : String) : List String :=
  if s ≠ "" then ((pySplit ',' s).map pyStrip).filter (fun t => t != "") else []

/-- The row-acceptance test of `parse_csv`:
`len(row) >= 5 and row[0].strip()`. -/
def acceptedRow (row : List String) : Bool :=
  decide (5 ≤ row.length) && (pyStrip (row.headD "") != "")

/-- The record built from an accepted row in `parse_csv`: name and link are
stripped fields 0 and 4, tags are the deduplicated sorted union of the
comma-parsed theme (field 2) and sub-category (field 3). -/
def mkDrill (row : List String) : Record :=
  { name := pyStrip (row.headD "")
    link := rowField row 4
    tags := List.insertionSort strLe
      ((parseCommaList (rowField row 2) ++ parseCommaList (rowField row 3)).dedup)
    theme := rowField row 2
    sub_category := rowField row 3 }

/-- The row loop of `parse_csv`, applied to the data rows (the rows after
the discarded header): append one record per accepted row, skip the rest. -/
def parse_csv : List (List String) → List Record
  | [] => []
  | row :: rest =>
    if acceptedRow row then mkDrill row :: parse_csv rest
    else parse_csv rest

/-- Model of `get_all_tags`: the sorted deduplicated union of every
record's tags. -/
def get_all_tags (drills : List Record) : List String :=
  List.insertionSort strLe ((drills.map Record.tags).flatten.dedup)

/-- Observable outcome of one run of `main`: the missing-input early
return, an uncaught exception, or a written output page whose data payload
is the record list and tag vocabulary. -/
inductive RunResult where
  | missingInput : RunResult
  | aborted : RunResult
  | output : List Record → List String → RunResult
deriving DecidableEq

/-- Model of `main`: the input is `none` when the CSV file does not exist,
otherwise the file's row sequence.  A missing file prints an error and
returns before writing anything.  On an existing file, `parse_csv` first
executes `next(reader)` to discard the header; on a file with no rows this
raises an uncaught `StopIteration`, aborting the run.  Otherwise the
remaining rows are parsed and the HTML page is written, embedding the
records and the tag vocabulary. -/
def main_model : Option (List (List String)) → RunResult
  | none => .missingInput
  | some [] => .aborted
  | some (_ :: rows) => .output (parse_csv rows) (get_all_tags (parse_csv rows))

/-- Model of the search-box input handler:
`searchTerm = e.target.value.toLowerCase()`. -/
def setSearch (value : String) : String := pyToLower value

/-- The search axis of `renderDrills`: `!searchTerm ||
drill.name.toLowerCase().includes(searchTerm) ||
drill.tags.some(tag => tag.toLowerCase().includes(searchTerm))`. -/
def matchesSearch (drill : Record) (searchTerm : String) : Bool :=
  searchTerm == "" || jsIncludes (pyToLower drill.name) searchTerm
    || drill.tags.any (fun tag => jsIncludes (pyToLower tag) searchTerm)

/-- The tag axis of `renderDrills`: `activeFilters.size === 0 ||
[...activeFilters].every(filter => drill.tags.includes(filter))`. -/
def matchesTags (drill : Record) (activeFilters : Finset String) : Bool :=
  decide (activeFilters.card = 0)
    || decide (∀ f ∈ activeFilters, drill.tags.contains f = true)

/-- The filtering step of `renderDrills`: keep the records matching both
axes. -/
def renderDrills (drills : List Record) (searchTerm : String)
    (activeFilters : Finset String) : List Record :=
  drills.filter (fun d => matchesSearch d searchTerm && matchesTags d activeFilters)

/-- Model of `toggleFilter`: delete the tag if present, add it otherwise. -/
def toggleFilter (tag : String) (activeFilters : Finset String) : Finset String :=
  if tag ∈ activeFilters then activeFilters.erase tag else insert tag activeFilters

/-- The search axis applied alone (used to state commutativity of the two
axes of `renderDrills`). -/
def searchFilter (drills : List Record) (searchTerm : String) : List Record :=
  drills.filter (fun d => matchesSearch d searchTerm)

/-- The tag axis applied alone (used to state commutativity of the two
axes of `renderDrills`). -/
def tagFilter (drills : List Record) (activeFilters : Finset String) : List Record :=
  drills.filter (fun d => matchesTags d activeFilters)

/-- Spec-side wording of tag derivation: "split on commas, trim each
piece, drop empty pieces". -/
def specPieces (s : String) : List String :=
  ((pySplit ',' s).map pyStrip).filter (fun t => t != "")

/-- Spec-side wording of "contains the term as a case-insensitive
substring". -/
def specContainsCI (hay term : String) : Prop :=
  ∃ p q : List Char, (pyToLower hay).data = p ++ (pyToLower term).data ++ q

/-- Spec-side wording of the search axis: the term is empty, or the name
contains it case-insensitively, or some tag contains it
case-insensitively. -/
def specMatchesSearch (drill : Record) (term : String) : Prop :=
  term = "" ∨ specContainsCI drill.name term ∨ ∃ tag ∈ drill.tags, specContainsCI tag term

/-- Spec-side wording of the tag axis: the active set is empty, or every
active tag is an element of the record's tag list. -/
def specMatchesTags (drill : Record) (active : Finset String) : Prop :=
  active = ∅ ∨ ∀ t ∈ active, t ∈ drill.tags

/-! ### Properties of the ordinal string order -/

theorem lexLe_cons_iff (a b : Char) (as bs : List Char) :
    lexLe (a :: as) (b :: bs) = true ↔
      a.toNat < b.toNat ∨ (a.toNat = b.toNat ∧ lexLe as bs = true) := by
  simp only [lexLe]
  by_cases h1 : a.toNat < b.toNat
  · simp [h1]
  · by_cases h2 : b.toNat < a.toNat
    · have hne : a.toNat ≠ b.toNat := by omega
      simp [h1, h2, hne]
    · have he : a.toNat = b.toNat := by omega
      simp [h1, h2, he]

theorem lexLe_total : ∀ a b : List Char, lexLe a b = true ∨ lexLe b a = true
  | [], _ => Or.inl rfl
  | _ :: _, [] => Or.inr rfl
  | a :: as, b :: bs => by
    rcases Nat.lt_trichotomy a.toNat b.toNat with h | h | h
    · exact Or.inl ((lexLe_cons_iff a b as bs).mpr (Or.inl h))
    · rcases lexLe_total as bs with ih | ih
      · exact Or.inl ((lexLe_cons_iff a b as bs).mpr (Or.inr ⟨h, ih⟩))
      · exact Or.inr ((lexLe_cons_iff b a bs as).mpr (Or.inr ⟨h.symm, ih⟩))
    · exact Or.inr ((lexLe_cons_iff b a bs as).mpr (Or.inl h))

theorem lexLe_trans :
    ∀ a b c : List Char, lexLe a b = true → lexLe b c = true → lexLe a c = true
  | [], _, _, _, _ => rfl
  | _ :: _, [], _, h1, _ => by simp [lexLe] at h1
  | _ :: _, _ :: _, [], _, h2 => by simp [lexLe] at h2
  | a :: as, b :: bs, c :: cs, h1, h2 => by
    rw [lexLe_cons_iff] at h1 h2 ⊢
    rcases h1 with h1 | ⟨he1, h1⟩
    · rcases h2 with h2 | ⟨he2, _⟩
      · exact Or.inl (by omega)
      · exact Or.inl (by omega)
    · rcases h2 with h2 | ⟨he2, h2⟩
      · exact Or.inl (by omega)
      · exact Or.inr ⟨he1.trans he2, lexLe_trans as bs cs h1 h2⟩

theorem lexLe_antisymm :
    ∀ a b : List Char, lexLe a b = true → lexLe b a = true → a = b
  | [], [], _, _ => rfl
  | [], _ :: _, _, h2 => by simp [lexLe] at h2
  | _ :: _, [], h1, _ => by simp [lexLe] at h1
  | a :: as, b :: bs, h1, h2 => by
    rw [lexLe_cons_iff] at h1 h2
    rcases h1 with h1 | ⟨he1, h1⟩
    · rcases h2 with h2 | ⟨he2, _⟩ <;> omega
    · rcases h2 with h2 | ⟨_, h2⟩
      · omega
      · have hc : a = b := Char.ext (UInt32.ext he1)
        rw [hc, lexLe_antisymm as bs h1 h2]

instance : IsTotal String strLe :=
  ⟨fun a b => lexLe_total a.data b.data⟩

instance : IsTrans String strLe :=
  ⟨fun a b c => lexLe_trans a.data b.data c.data⟩

instance : IsAntisymm String strLe :=
  ⟨fun a b h1 h2 => String.ext (lexLe_antisymm a.data b.data h1 h2)⟩

/-! ### Substring containment -/

theorem prefixB_iff : ∀ n h : List Char, prefixB n h = true ↔ ∃ q, h = n ++ q
  | [], h => by simp [prefixB]
  | a :: as, [] => by simp [prefixB]
  | a :: as, b :: bs => by
    simp only [prefixB, Bool.and_eq_true, beq_iff_eq, prefixB_iff as bs]
    constructor
    · rintro ⟨rfl, q, rfl⟩
      exact ⟨q, rfl⟩
    · rintro ⟨q, hq⟩
      injection hq with h1 h2
      exact ⟨h1.symm, q, h2⟩

theorem substrB_iff : ∀ h n : List Char, substrB n h = true ↔ ∃ p q, h = p ++ n ++ q
  | [], n => by
    simp only [substrB, List.isEmpty_iff]
    constructor
    · rintro rfl
      exact ⟨[], [], rfl⟩
    · rintro ⟨p, q, hpq⟩
      rcases List.append_eq_nil.mp hpq.symm with ⟨hpn, hq⟩
      exact (List.append_eq_nil.mp hpn).2
  | c :: t, n => by
    simp only [substrB, Bool.or_eq_true, prefixB_iff, substrB_iff t n]
    constructor
    · rintro (⟨q, hq⟩ | ⟨p, q, hq⟩)
      · exact ⟨[], q, by simpa using hq⟩
      · exact ⟨c :: p, q, by simp [hq]⟩
    · rintro ⟨p, q, hpq⟩
      cases p with
      | nil => exact Or.inl ⟨q, by simpa using hpq⟩
      | cons d p' =>
        injection hpq with h1 h2
        exact Or.inr ⟨p', q, h2⟩

/-! ### Idempotence of whitespace stripping -/

theorem dropWhile_twice {α : Type} (p : α → Bool) (l : List α) :
    List.dropWhile p (List.dropWhile p l) = List.dropWhile p l := by
  induction l with
  | nil => rfl
  | cons a l ih =>
    by_cases h : p a = true
    · simp [List.dropWhile_cons, h, ih]
    · simp [List.dropWhile_cons, h]

theorem dropWhile_append_last {α : Type} (p : α → Bool) (c : α) (hc : p c = false) :
    ∀ u : List α, List.dropWhile p (u ++ [c]) = List.dropWhile p u ++ [c]
  | [] => by simp [List.dropWhile_cons, hc]
  | a :: u => by
    by_cases h : p a = true
    · simp [List.dropWhile_cons, h, dropWhile_append_last p c hc u]
    · simp [List.dropWhile_cons, h]

theorem dropWhile_head_false {α : Type} (p : α → Bool) :
    ∀ l : List α, ∀ c : α, ∀ cs : List α, List.dropWhile p l = c :: cs → p c = false := by
  intro l
  induction l with
  | nil =>
    intro c cs h
    simp at h
  | cons a l ih =>
    intro c cs h
    by_cases ha : p a = true
    · rw [List.dropWhile_cons, if_pos ha] at h
      exact ih c cs h
    · rw [List.dropWhile_cons, if_neg ha] at h
      injection h with h1 _
      subst h1
      simpa using ha

theorem stripChars_idem (l : List Char) : stripChars (stripChars l) = stripChars l := by
  unfold stripChars
  cases hd : List.dropWhile Char.isWhitespace l with
  | nil => simp
  | cons c cs =>
    have hc : Char.isWhitespace c = false :=
      dropWhile_head_false Char.isWhitespace l c cs hd
    have h1 : ((c :: cs).reverse.dropWhile Char.isWhitespace).reverse
        = c :: (cs.reverse.dropWhile Char.isWhitespace).reverse := by
      rw [List.reverse_cons, dropWhile_append_last Char.isWhitespace c hc, List.reverse_append]
      simp
    rw [h1]
    rw [List.dropWhile_cons, if_neg (by simp [hc]), List.reverse_cons, List.reverse_reverse,
      dropWhile_append_last Char.isWhitespace c hc, dropWhile_twice, List.reverse_append]
    simp

theorem pyStrip_pyStrip (s : String) : pyStrip (pyStrip s) = pyStrip s :=
  String.ext (stripChars_idem s.data)

/-! ### Bridging lemmas between the code's Boolean filters and the spec wording -/

theorem pyToLower_eq_empty_iff (s : String) : pyToLower s = "" ↔ s = "" := by
  rw [String.ext_iff, String.ext_iff]
  show s.data.map Char.toLower = "".data ↔ s.data = "".data
  rw [show "".data = ([] : List Char) from rfl]
  exact List.map_eq_nil_iff

theorem matchesSearch_iff (d : Record) (term : String) :
    matchesSearch d (setSearch term) = true ↔ specMatchesSearch d term := by
  unfold matchesSearch setSearch jsIncludes specMatchesSearch specContainsCI
  simp only [Bool.or_eq_true, List.any_eq_true, beq_iff_eq, substrB_iff,
    pyToLower_eq_empty_iff]
  exact or_assoc

theorem matchesTags_iff (d : Record) (S : Finset String) :
    matchesTags d S = true ↔ specMatchesTags d S := by
  unfold matchesTags specMatchesTags
  simp [Finset.card_eq_zero]

theorem parseCommaList_eq (s : String) : parseCommaList s = specPieces s := by
  unfold parseCommaList specPieces
  by_cases h : s = ""
  · rw [if_neg (by simp [h])]
    subst h
    decide
  · rw [if_pos h]

theorem mem_mkDrill_tags (row : List String) (s : String) :
    s ∈ (mkDrill row).tags ↔
      s ∈ specPieces (mkDrill row).theme ∨ s ∈ specPieces (mkDrill row).sub_category := by
  show s ∈ List.insertionSort strLe
      ((parseCommaList (rowField row 2) ++ parseCommaList (rowField row 3)).dedup) ↔
    s ∈ specPieces (rowField row 2) ∨ s ∈ specPieces (rowField row 3)
  rw [(List.perm_insertionSort strLe _).mem_iff, List.mem_dedup, List.mem_append,
    parseCommaList_eq, parseCommaList_eq]

theorem specPieces_elem (x t : String) (ht : t ∈ specPieces x) :
    t ≠ "" ∧ pyStrip t = t := by
  unfold specPieces at ht
  rw [List.mem_filter] at ht
  obtain ⟨hmap, hne⟩ := ht
  rw [List.mem_map] at hmap
  obtain ⟨raw, _, hraw⟩ := hmap
  refine ⟨by simpa using hne, ?_⟩
  rw [← hraw]
  exact pyStrip_pyStrip raw

/-! ### The claims -/

/-- C1: for every record, search term and active tag set, the record is
shown by `renderDrills` iff it matches both filter axes: the search term
is empty, or the name or some tag contains it as a case-insensitive
substring; and the active tag set is empty, or every active tag is an
element of the record's tag list. -/
theorem c1_shown_iff_matches_both_axes (drills : List Record) (d : Record)
    (term : String) (active : Finset String) :
    d ∈ renderDrills drills (setSearch term) active ↔
      d ∈ drills ∧ specMatchesSearch d term ∧ specMatchesTags d active := by
  simp only [renderDrills, List.mem_filter, Bool.and_eq_true, matchesSearch_iff,
    matchesTags_iff, and_assoc]

/-- C2: extraction produces exactly one record per row with at least five
fields and a non-empty trimmed first field, none for any other row, and
the records keep the input row order: the loop equals filtering by the
acceptance test followed by mapping the record constructor. -/
theorem c2_parse_csv_accepted_rows (rows : List (List String)) :
    parse_csv rows = (rows.filter acceptedRow).map mkDrill ∧
      ∀ row : List String, acceptedRow row = true ↔
        (5 ≤ row.length ∧ pyStrip (row.headD "") ≠ "") := by
  constructor
  · induction rows with
    | nil => rfl
    | cons row rest ih =>
      by_cases h : acceptedRow row = true
      · simp [parse_csv, h, ih]
      · have h' : acceptedRow row = false := by simpa using h
        simp [parse_csv, h', ih]
  · intro row
    simp [acceptedRow]

/-- C3: for every accepted row, the record's tags are sorted in the
ordinal string order, duplicate-free, and contain exactly the trimmed
non-empty comma-separated pieces of the theme and sub-category fields. -/
theorem c3_tags_derivation (row : List String) (_h : acceptedRow row = true) :
    List.Sorted strLe (mkDrill row).tags ∧ (mkDrill row).tags.Nodup ∧
      ∀ s : String, s ∈ (mkDrill row).tags ↔
        s ∈ specPieces (mkDrill row).theme ∨ s ∈ specPieces (mkDrill row).sub_category := by
  refine ⟨List.sorted_insertionSort strLe _, ?_, fun s => mem_mkDrill_tags row s⟩
  exact (List.perm_insertionSort strLe _).nodup_iff.mpr (List.nodup_dedup _)

/-- Witness for C3 at the spec's first example row. -/
theorem c3_tags_derivation_witness :
    List.Sorted strLe
        (mkDrill ["Breakout Drill", "x", "Skating, Passing", "Edges", "http://a"]).tags ∧
      (mkDrill ["Breakout Drill", "x", "Skating, Passing", "Edges", "http://a"]).tags.Nodup ∧
      ∀ s : String,
        s ∈ (mkDrill ["Breakout Drill", "x", "Skating, Passing", "Edges", "http://a"]).tags ↔
          s ∈ specPieces
              (mkDrill ["Breakout Drill", "x", "Skating, Passing", "Edges", "http://a"]).theme ∨
            s ∈ specPieces
              (mkDrill ["Breakout Drill", "x", "Skating, Passing", "Edges", "http://a"]).sub_category :=
  c3_tags_derivation ["Breakout Drill", "x", "Skating, Passing", "Edges", "http://a"] (by decide)

/-- C4: the tag vocabulary is sorted in the ordinal string order,
duplicate-free, and a string belongs to it iff it occurs in some record's
tag list. -/
theorem c4_vocabulary_spec (drills : List Record) :
    List.Sorted strLe (get_all_tags drills) ∧ (get_all_tags drills).Nodup ∧
      ∀ s : String, s ∈ get_all_tags drills ↔ ∃ d ∈ drills, s ∈ d.tags := by
  refine ⟨List.sorted_insertionSort strLe _,
    (List.perm_insertionSort strLe _).nodup_iff.mpr (List.nodup_dedup _), fun s => ?_⟩
  unfold get_all_tags
  rw [(List.perm_insertionSort strLe _).mem_iff, List.mem_dedup, List.mem_flatten]
  simp

/-- C5 counterexample: an input file that exists but contains no rows at
all makes the run abort (`next(reader)` raises an uncaught
`StopIteration`), so it is not true that every existing input file
produces the output artifact. -/
theorem c5_empty_file_aborts : main_model (some []) = RunResult.aborted := rfl

/-- C5 (amended): a missing input file is reported and the run halts with
no output; an existing input file with at least one row (the header)
always completes, silently skipping malformed data rows and producing the
output artifact; an existing input file with no rows at all aborts with an
uncaught exception before producing output. -/
theorem c5_error_handling :
    main_model none = RunResult.missingInput ∧
      (∀ hdr : List String, ∀ dataRows : List (List String),
        main_model (some (hdr :: dataRows)) =
          RunResult.output (parse_csv dataRows) (get_all_tags (parse_csv dataRows))) ∧
      main_model (some []) = RunResult.aborted :=
  ⟨rfl, fun _ _ => rfl, rfl⟩

/-- C6: the spec's worked example: the two example rows parse to the two
expected records, the tag vocabulary is `["Edges", "Passing", "Skating"]`,
searching "warm" returns only the Warmup record, the active tag set
`{"Skating", "Passing"}` returns only the Breakout Drill record, and the
active tag set `{"Skating"}` returns both. -/
theorem c6_worked_example :
    parse_csv [["Breakout Drill", "x", "Skating, Passing", "Edges", "http://a"],
        ["Warmup", "x", "Skating", "", ""]] =
      [{ name := "Breakout Drill", link := "http://a",
         tags := ["Edges", "Passing", "Skating"],
         theme := "Skating, Passing", sub_category := "Edges" },
       { name := "Warmup", link := "", tags := ["Skating"],
         theme := "Skating", sub_category := "" }] ∧
    get_all_tags (parse_csv [["Breakout Drill", "x", "Skating, Passing", "Edges", "http://a"],
        ["Warmup", "x", "Skating", "", ""]]) = ["Edges", "Passing", "Skating"] ∧
    renderDrills (parse_csv [["Breakout Drill", "x", "Skating, Passing", "Edges", "http://a"],
        ["Warmup", "x", "Skating", "", ""]]) (setSearch "warm") ∅ =
      [{ name := "Warmup", link := "", tags := ["Skating"],
         theme := "Skating", sub_category := "" }] ∧
    renderDrills (parse_csv [["Breakout Drill", "x", "Skating, Passing", "Edges", "http://a"],
        ["Warmup", "x", "Skating", "", ""]]) (setSearch "") {"Skating", "Passing"} =
      [{ name := "Breakout Drill", link := "http://a",
         tags := ["Edges", "Passing", "Skating"],
         theme := "Skating, Passing", sub_category := "Edges" }] ∧
    renderDrills (parse_csv [["Breakout Drill", "x", "Skating, Passing", "Edges", "http://a"],
        ["Warmup", "x", "Skating", "", ""]]) (setSearch "") {"Skating"} =
      [{ name := "Breakout Drill", link := "http://a",
         tags := ["Edges", "Passing", "Skating"],
         theme := "Skating, Passing", sub_category := "Edges" },
       { name := "Warmup", link := "", tags := ["Skating"],
         theme := "Skating", sub_category := "" }] := by
  decide

/-- C7: the two filter axes commute: applying the tag filter and then the
search filter gives the same list as the reverse order, and `renderDrills`
equals that composition. -/
theorem c7_filter_axes_commute (drills : List Record) (t : String) (S : Finset String) :
    tagFilter (searchFilter drills t) S = searchFilter (tagFilter drills S) t ∧
      renderDrills drills t S = searchFilter (tagFilter drills S) t := by
  constructor
  · unfold searchFilter tagFilter
    rw [List.filter_filter, List.filter_filter]
    exact List.filter_congr (fun d _ => Bool.and_comm _ _)
  · unfold renderDrills searchFilter tagFilter
    rw [List.filter_filter]

/-- C8: with the empty search term and the empty active tag set the filter
is the identity: every record is shown. -/
theorem c8_empty_filters_identity (drills : List Record) :
    renderDrills drills (setSearch "") ∅ = drills := by
  unfold renderDrills
  have h : ∀ d : Record, (matchesSearch d (setSearch "") && matchesTags d ∅) = true := by
    intro d
    have h1 : (setSearch "" == "") = true := by decide
    have h2 : decide ((∅ : Finset String).card = 0) = true := by decide
    simp [matchesSearch, matchesTags, h1, h2]
  simp [h]

/-- C9: `toggleFilter` is an involution on the active tag set, and a
single toggle removes the tag when present and inserts it when absent. -/
theorem c9_toggle_involution (S : Finset String) (t : String) :
    toggleFilter t (toggleFilter t S) = S ∧
      (t ∈ S → toggleFilter t S = S.erase t) ∧
      (t ∉ S → toggleFilter t S = insert t S) := by
  by_cases h : t ∈ S
  · have hin : toggleFilter t S = S.erase t := if_pos h
    refine ⟨?_, fun _ => hin, fun hn => absurd h hn⟩
    rw [hin, toggleFilter, if_neg (Finset.not_mem_erase t S), Finset.insert_erase h]
  · have hin : toggleFilter t S = insert t S := if_neg h
    refine ⟨?_, fun hm => absurd hm h, fun _ => hin⟩
    rw [hin, toggleFilter, if_pos (Finset.mem_insert_self t S), Finset.erase_insert h]

/-- Witness for C9 at concrete active tag sets. -/
theorem c9_toggle_involution_witness :
    toggleFilter "a" (toggleFilter "a" ({"b"} : Finset String)) = {"b"} ∧
      toggleFilter "a" ({"a", "b"} : Finset String) = ({"a", "b"} : Finset String).erase "a" ∧
      toggleFilter "a" ({"b"} : Finset String) = insert "a" ({"b"} : Finset String) :=
  ⟨(c9_toggle_involution {"b"} "a").1,
    (c9_toggle_involution {"a", "b"} "a").2.1 (by decide),
    (c9_toggle_involution {"b"} "a").2.2 (by decide)⟩

/-- C10: for every accepted row, the record's name is non-empty and
strip-fixed (no leading or trailing whitespace), and every tag is
non-empty and strip-fixed. -/
theorem c10_normalization_invariant (row : List String) (h : acceptedRow row = true) :
    (mkDrill row).name ≠ "" ∧ pyStrip (mkDrill row).name = (mkDrill row).name ∧
      ∀ t ∈ (mkDrill row).tags, t ≠ "" ∧ pyStrip t = t := by
  have hname : (mkDrill row).name = pyStrip (row.headD "") := rfl
  refine ⟨?_, ?_, ?_⟩
  · rw [hname]
    have h2 := ((Bool.and_eq_true _ _).mp h).2
    simpa using h2
  · rw [hname]
    exact pyStrip_pyStrip _
  · intro t ht
    rw [mem_mkDrill_tags] at ht
    rcases ht with hp | hp
    · exact specPieces_elem _ t hp
    · exact specPieces_elem _ t hp

/-- Witness for C10 at the spec's first example row. -/
theorem c10_normalization_invariant_witness :
    (mkDrill ["Breakout Drill", "x", "Skating, Passing", "Edges", "http://a"]).name ≠ "" ∧
      pyStrip (mkDrill ["Breakout Drill", "x", "Skating, Passing", "Edges", "http://a"]).name =
        (mkDrill ["Breakout Drill", "x", "Skating, Passing", "Edges", "http://a"]).name ∧
      ∀ t ∈ (mkDrill ["Breakout Drill", "x", "Skating, Passing", "Edges", "http://a"]).tags,
        t ≠ "" ∧ pyStrip t = t :=
  c10_normalization_invariant ["Breakout Drill", "x", "Skating, Passing", "Edges", "http://a"]
    (by decide)
